import Mathlib

/-!
Verification of the LoanLink microloan backend (a Node/Express + MongoDB
server, `src/index.js`).  The repository ships two revisions of the server
in one file; where their behaviour differs we embed both, suffixed `V1`
(the first revision) and `V2` (the second revision).

Documents of the schemaless store are modelled as association lists from
field names to string values; JS object spread and Mongo `$set` become
field-wise overwrites, Mongo queries become decidable predicates, and the
collections become lists of documents.  Request handlers are pure
functions from the relevant request data and the current collection
contents to a response value and the updated collection contents.
-/

namespace LoanLink

/-- A JSON-ish document: an association list from field names to string
values.  Later writes shadow earlier ones, as in a JS object. -/
abbrev Doc : Type := List (String × String)

/-- Field lookup, `doc.field` in JS / Mongo dot access. -/
def Doc.get (d : Doc) (k : String) : Option String :=
  (List.find? (fun p => p.1 == k) d).map Prod.snd

/-- Field overwrite: models both a JS spread `\x7b...d, k: v\x7d` and a Mongo
`$set` of a single field. -/
def Doc.set (d : Doc) (k v : String) : Doc :=
  List.filter (fun p => p.1 != k) d ++ [(k, v)]

theorem find_filter_ne_append (tl : List (String × String)) (k k2 v : String)
    (h : k2 ≠ k) :
    List.find? (fun p => p.1 == k2) (List.filter (fun p => p.1 != k) tl ++ [(k, v)]) =
      List.find? (fun p => p.1 == k2) tl := by
  have hk : (k == k2) = false := by
    simp only [beq_eq_false_iff_ne]; exact fun hh => h hh.symm
  induction tl with
  | nil => simp [List.find?, hk]
  | cons p tl ih =>
      by_cases hp : p.1 = k
      · have hpk : (p.1 == k2) = false := by
          simp only [beq_eq_false_iff_ne, hp]; exact fun hh => h hh.symm
        simp [List.filter_cons, hp, List.find?, hpk, hk, ih]
      · by_cases hpk : p.1 = k2
        · simp [List.filter_cons, hp, List.find?, hpk, hk, h]
        · have hpk2 : (p.1 == k2) = false := by
            simp only [beq_eq_false_iff_ne]; exact hpk
          simp [List.filter_cons, hp, List.find?, hpk2, hk, ih]

theorem Doc.get_set_self (d : Doc) (k v : String) : (d.set k v).get k = some v := by
  induction d with
  | nil => simp [Doc.set, Doc.get, List.find?]
  | cons p tl ih =>
      by_cases h : p.1 = k
      · simp only [Doc.set, Doc.get] at ih ⊢
        simp [List.filter_cons, h, ih]
      · simp only [Doc.set, Doc.get] at ih ⊢
        simp [List.filter_cons, List.find?, h, ih]

theorem Doc.get_set_ne (d : Doc) (k k2 v : String) (h : k2 ≠ k) :
    (d.set k v).get k2 = d.get k2 := by
  unfold Doc.set Doc.get
  rw [find_filter_ne_append d k k2 v h]

/-- JS truthiness of an optional string: `undefined` and `''` are falsy. -/
def isTruthy : Option String → Bool
  | some s => s ≠ ""
  | none => false

/-- JS `v || dflt` on an optional string. -/
def jsOr (v : Option String) (dflt : String) : String :=
  match v with
  | some s => if s = "" then dflt else s
  | none => dflt

/-- Mongo `findOne` on an equality query over one field: the first document
of the collection whose field `k` holds the value `v`. -/
def findOneBy (docs : List Doc) (k v : String) : Option Doc :=
  List.find? (fun d => d.get k == some v) docs

/-! ### Role gates (`verifyAdmin`, `verifyManager`)

Both revisions compute `user?.role === 'admin'` (resp.
`user?.role === 'manager' || user?.role === 'admin'`) on the user document
found by the authenticated email, responding 403 when the check fails, and
calling `next()` (running the handler) when it passes. -/

/-- Outcome of a role gate: either the handler runs, or the gate answers
403 and the handler never executes. -/
inductive GateResult where
  | proceed
  | forbidden403
deriving DecidableEq

/-- `verifyAdmin` from `src/index.js` (identical logic in both revisions):
look up the caller's user document by email; pass iff its role is
`admin`. -/
def verifyAdmin (users : List Doc) (email : String) : GateResult :=
  let user := findOneBy users "email" email
  let isAdmin := (user.bind (fun u => u.get "role")) == some "admin"
  if isAdmin then .proceed else .forbidden403

/-- `verifyManager` from `src/index.js` (identical logic in both
revisions): pass iff the caller's user document has role `manager` or
`admin`. -/
def verifyManager (users : List Doc) (email : String) : GateResult :=
  let user := findOneBy users "email" email
  let role := user.bind (fun u => u.get "role")
  let isManager := role == some "manager" || role == some "admin"
  if isManager then .proceed else .forbidden403

/-! ### POST /applications -/

/-- The document inserted by `POST /applications`: the request body spread
first, then the server's own `status`, `feeStatus` and `appliedAt` fields
(which therefore overwrite any client-supplied values). -/
def postApplicationDoc (body : Doc) (now : String) : Doc :=
  ((body.set "status" "pending").set "feeStatus" "unpaid").set "appliedAt" now

/-- `POST /applications` handler: inserts the document built from the body
into the applications collection. -/
def postApplication (apps : List Doc) (body : Doc) (now : String) : List Doc :=
  apps ++ [postApplicationDoc body now]

/-! ### POST /users -/

/-- The document inserted by `POST /users`: the request body spread first,
then `role: user.role || 'borrower'`, `status: 'active'` and `createdAt`
(which therefore overwrite any client-supplied `status`, and replace a
falsy client `role` by `borrower`). -/
def postUserDoc (body : Doc) (now : String) : Doc :=
  ((body.set "role" (jsOr (body.get "role") "borrower")).set "status" "active").set
    "createdAt" now

/-- Outcome of a `POST /users` insert: either the
`\x7bmessage: 'user already exists', insertedId: null\x7d` marker, or the
insert result carrying the inserted document. -/
inductive InsertUserResult where
  | alreadyExists
  | inserted (d : Doc)
deriving DecidableEq

/-- Mongo `findOne(\x7b email: user.email \x7d)` where the body's email may be
absent: the first user document whose `email` field equals the body's. -/
def findUserByEmail (users : List Doc) (e : Option String) : Option Doc :=
  List.find? (fun d => d.get "email" == e) users

/-- `POST /users` handler: look up an existing user with the body's email;
answer the already-exists marker and leave the collection unchanged when
one is found, otherwise insert the new user document. -/
def postUsers (users : List Doc) (body : Doc) (now : String) :
    InsertUserResult × List Doc :=
  match findUserByEmail users (body.get "email") with
  | some _ => (.alreadyExists, users)
  | none => (.inserted (postUserDoc body now), users ++ [postUserDoc body now])

theorem postUserDoc_get_email (body : Doc) (now : String) :
    (postUserDoc body now).get "email" = body.get "email" := by
  unfold postUserDoc
  rw [Doc.get_set_ne _ _ _ _ (by decide), Doc.get_set_ne _ _ _ _ (by decide),
    Doc.get_set_ne _ _ _ _ (by decide)]

/-! ### DELETE /applications/:id -/

/-- Mongo `deleteOne`: remove the first document matching the predicate;
the result is the deleted count (0 or 1) with the remaining collection. -/
def deleteOne : List Doc → (Doc → Bool) → Nat × List Doc
  | [], _ => (0, [])
  | d :: ds, p =>
      if p d then (1, ds)
      else
        let r := deleteOne ds p
        (r.1, d :: r.2)

/-- The compound filter `\x7b _id: new ObjectId(id), status: 'pending' \x7d` of
`DELETE /applications/:id`. -/
def deleteAppFilter (id : String) (d : Doc) : Bool :=
  d.get "_id" == some id && d.get "status" == some "pending"

/-- `DELETE /applications/:id` handler (identical in both revisions). -/
def deleteApplication (apps : List Doc) (id : String) : Nat × List Doc :=
  deleteOne apps (deleteAppFilter id)

/-! ### PUT /loans/:id -/

/-- Mongo `updateOne` without upsert: apply the update function to the
first document matching the predicate; `none` when no document matches. -/
def updateFirst : List Doc → (Doc → Bool) → (Doc → Doc) → Option (List Doc)
  | [], _, _ => none
  | d :: ds, p, f =>
      if p d then some (f d :: ds)
      else (updateFirst ds p f).map (fun l => d :: l)

/-- Mongo `$set` with a whole update document: overwrite each listed field
in order. -/
def applySet (d s : Doc) : Doc :=
  List.foldl (fun acc q => Doc.set acc q.1 q.2) d s

/-- `PUT /loans/:id` handler (identical in both revisions):
`delete updatedLoan._id`, then `updateOne` on the `_id` filter with
`$set: updatedLoan` and `upsert: true`.  On a match the first matching
document receives the `$set`; on no match Mongo inserts a document built
from the filter's equality field (`_id: id`) with the `$set` applied. -/
def putLoan (loans : List Doc) (id : String) (body : Doc) : List Doc :=
  let s := List.filter (fun q => q.1 != "_id") body
  match updateFirst loans (fun d => d.get "_id" == some id)
      (fun d => applySet d s) with
  | some l => l
  | none => loans ++ [applySet (Doc.set [] "_id" id) s]

theorem get_of_not_mem_keys (s : Doc) (k : String)
    (h : k ∉ List.map Prod.fst s) : Doc.get s k = none := by
  induction s with
  | nil => rfl
  | cons p tl ih =>
      simp only [List.map_cons, List.mem_cons, not_or] at h
      have hp : (p.1 == k) = false := by
        simp only [beq_eq_false_iff_ne]
        exact fun hh => h.1 hh.symm
      unfold Doc.get
      simp only [List.find?, hp]
      exact ih h.2

theorem applySet_get (d s : Doc) (k : String)
    (hnd : (List.map Prod.fst s).Nodup) :
    (applySet d s).get k =
      match Doc.get s k with
      | some v => some v
      | none => d.get k := by
  induction s generalizing d with
  | nil => simp [applySet, Doc.get, List.find?]
  | cons q tl ih =>
      simp only [List.map_cons, List.nodup_cons] at hnd
      have hstep : applySet d (q :: tl) = applySet (d.set q.1 q.2) tl := rfl
      rw [hstep, ih _ hnd.2]
      by_cases hk : k = q.1
      · have htl : Doc.get tl k = none :=
          get_of_not_mem_keys tl k (hk ▸ hnd.1)
        have hqb : (q.1 == k) = true := by simp [hk]
        have hq : Doc.get (q :: tl) k = some q.2 := by
          unfold Doc.get
          simp only [List.find?, hqb]
          rfl
        rw [htl, hq, hk, Doc.get_set_self]
      · have hqb : (q.1 == k) = false := by
          simp only [beq_eq_false_iff_ne]
          exact fun hh => hk hh.symm
        have hq : Doc.get (q :: tl) k = Doc.get tl k := by
          unfold Doc.get
          simp only [List.find?, hqb]
        rw [hq]
        cases htl : Doc.get tl k with
        | some v => rfl
        | none => exact Doc.get_set_ne d q.1 k q.2 hk

theorem get_filter_ne_key (body : Doc) (key k : String) (h : k ≠ key) :
    Doc.get (List.filter (fun q => q.1 != key) body) k = Doc.get body k := by
  induction body with
  | nil => rfl
  | cons q tl ih =>
      by_cases hq : q.1 = key
      · have hqk : (q.1 == k) = false := by
          simp only [beq_eq_false_iff_ne, hq]
          exact fun hh => h hh.symm
        have hfilt : (q.1 != key) = false := by simp [hq]
        have : Doc.get (q :: tl) k = Doc.get tl k := by
          unfold Doc.get
          simp only [List.find?, hqk]
        simp only [List.filter_cons, hfilt, this]
        exact ih
      · have hfilt : (q.1 != key) = true := by simp [hq]
        by_cases hqk : q.1 = k
        · have hqkb : (q.1 == k) = true := by simp [hqk]
          simp only [List.filter_cons, hfilt]
          unfold Doc.get
          simp only [List.find?, hqkb]
        · have hqkb : (q.1 == k) = false := by simp [hqk]
          simp only [List.filter_cons, hfilt]
          unfold Doc.get
          simp only [List.find?, hqkb]
          exact ih

theorem get_filter_self_key (body : Doc) (key : String) :
    Doc.get (List.filter (fun q => q.1 != key) body) key = none := by
  apply get_of_not_mem_keys
  intro hmem
  rcases List.mem_map.mp hmem with ⟨q, hq, hfst⟩
  have hpred := (List.mem_filter.mp hq).2
  simp only [bne_iff_ne, ne_eq, decide_eq_true_eq] at hpred
  exact hpred hfst

theorem filter_keys_nodup (body : Doc) (key : String)
    (h : (List.map Prod.fst body).Nodup) :
    (List.map Prod.fst (List.filter (fun q => q.1 != key) body)).Nodup :=
  List.Nodup.sublist (List.Sublist.map Prod.fst (List.filter_sublist body)) h

theorem updateFirst_none (l : List Doc) (p : Doc → Bool) (f : Doc → Doc)
    (h : ∀ d ∈ l, p d = false) : updateFirst l p f = none := by
  induction l with
  | nil => rfl
  | cons d ds ih =>
      simp only [updateFirst, h d (by simp)]
      rw [ih (fun e he => h e (by simp [he]))]
      rfl

theorem updateFirst_split (l1 : List Doc) (d : Doc) (l2 : List Doc)
    (p : Doc → Bool) (f : Doc → Doc)
    (h1 : ∀ e ∈ l1, p e = false) (hd : p d = true) :
    updateFirst (l1 ++ d :: l2) p f = some (l1 ++ f d :: l2) := by
  induction l1 with
  | nil => simp [updateFirst, hd]
  | cons e es ih =>
      have he : p e = false := h1 e (by simp)
      have ih2 := ih (fun x hx => h1 x (by simp [hx]))
      simp [List.cons_append, updateFirst, he, ih2]

/-! ### GET /applications

The two revisions build different borrower-scope filters: revision 1 sets
`query.borrowerEmail = email`, revision 2 sets `query.email = email`. -/

/-- Revision 1 query of `GET /applications`: borrower scope on the
`borrowerEmail` field, optional exact `status` filter (JS truthiness on
the query string). -/
def applicationsQueryV1 (email : String) (role sta : Option String) : Doc :=
  let q1 : Doc := if role == some "borrower" then Doc.set [] "borrowerEmail" email else []
  match sta with
  | some s => if s ≠ "" then q1.set "status" s else q1
  | none => q1

/-- Revision 2 query of `GET /applications`: borrower scope on the `email`
field, optional exact `status` filter. -/
def applicationsQueryV2 (email : String) (role sta : Option String) : Doc :=
  let q1 : Doc := if role == some "borrower" then Doc.set [] "email" email else []
  match sta with
  | some s => if s ≠ "" then q1.set "status" s else q1
  | none => q1

/-- Mongo equality-query matching: a document matches iff every query
field is present with exactly the query's value. -/
def matchesQuery (d : Doc) (q : Doc) : Bool :=
  List.all q (fun p => d.get p.1 == some p.2)

/-- Revision 1 `GET /applications` handler. -/
def getApplicationsV1 (apps : List Doc) (email : String)
    (role sta : Option String) : List Doc :=
  List.filter (fun d => matchesQuery d (applicationsQueryV1 email role sta)) apps

/-- Revision 2 `GET /applications` handler. -/
def getApplicationsV2 (apps : List Doc) (email : String)
    (role sta : Option String) : List Doc :=
  List.filter (fun d => matchesQuery d (applicationsQueryV2 email role sta)) apps

/-! ### Token verification (`verifyToken`) and POST /jwt -/

/-- The identity claim carried by a session token. -/
structure TokenClaim where
  email : String
deriving DecidableEq

/-- The request data `verifyToken` inspects: the `token` cookie and the
`Authorization` header, each possibly absent. -/
structure Req where
  cookieToken : Option String
  authorizationHeader : Option String

/-- Outcome of `verifyToken`: 401, the revision-2 missing-secret 500, or
`req.user = decoded` followed by `next()`. -/
inductive AuthResult where
  | unauthorized401
  | configError500
  | authorized (claim : TokenClaim)
deriving DecidableEq

/-- `jwt.verify` with the configured secret, abstracted as a function from
a token string to the decoded claim, `none` for any verification error. -/
abbrev Verifier := String → Option TokenClaim

/-- Revision 1 `verifyToken`: reads only the `token` cookie; a missing (or
falsy) cookie is a 401, and any verify error is a 401. -/
def verifyTokenV1 (vf : Verifier) (req : Req) : AuthResult :=
  let token := req.cookieToken
  if !(isTruthy token) then .unauthorized401
  else
    match vf (token.getD "") with
    | some c => .authorized c
    | none => .unauthorized401

/-- Split a character list at every space, JS `split(' ')` style. -/
def splitAtSpaces (cs : List Char) (cur : List Char) : List (List Char) :=
  match cs with
  | [] => [cur.reverse]
  | a :: rest =>
      if a = ' ' then cur.reverse :: splitAtSpaces rest []
      else splitAtSpaces rest (a :: cur)

/-- `authorization.split(' ')[1]`: the part between the first and second
space of the header (`undefined` when the header has no space). -/
def bearerOf (h : String) : Option String :=
  (List.map (fun l => String.mk l) (splitAtSpaces h.toList [])).get? 1

/-- Revision 2 token extraction: the cookie, falling back to the bearer
part of the `Authorization` header when the cookie is falsy and the header
truthy. -/
def extractTokenV2 (req : Req) : Option String :=
  let token := req.cookieToken
  if !(isTruthy token) then
    match req.authorizationHeader with
    | some h => if h ≠ "" then bearerOf h else token
    | none => token
  else token

/-- Revision 2 `verifyToken`: cookie-or-bearer extraction, then a 500 when
no `ACCESS_TOKEN_SECRET` is configured, then `jwt.verify`. -/
def verifyTokenV2 (secretConfigured : Bool) (vf : Verifier) (req : Req) :
    AuthResult :=
  let token := extractTokenV2 req
  if !(isTruthy token) then .unauthorized401
  else if !secretConfigured then .configError500
  else
    match vf (token.getD "") with
    | some c => .authorized c
    | none => .unauthorized401

/-- A concrete demonstration verifier: accepts the two token strings
`ck` and `hd`. -/
def vfDemo : Verifier := fun s =>
  if s = "ck" then some ⟨"cookie@x"⟩
  else if s = "hd" then some ⟨"header@x"⟩
  else none

/-- Modelled from the spec: the `jsonwebtoken` library called by
`POST /jwt` and `verifyToken` is an external dependency whose code is not
in `src/`.  Per the spec's Token Service, a signed token carries the
identity claim, the signing secret and the expiry; `jwt.sign` with
`expiresIn: '1h'` sets expiry 3600 seconds after issue time, and
`jwt.verify` recovers the claim iff the verification secret equals the
signing secret and the token is not yet expired. -/
structure SignedToken where
  payload : TokenClaim
  secret : String
  exp : Nat
deriving DecidableEq

/-- Modelled from the spec: `jwt.sign(user, secret, expiresIn 1h)`. -/
def jwtSign (c : TokenClaim) (secret : String) (now : Nat) : SignedToken :=
  ⟨c, secret, now + 3600⟩

/-- Modelled from the spec: `jwt.verify(token, secret)` at time `now`. -/
def jwtVerify (tok : SignedToken) (secret : String) (now : Nat) :
    Option TokenClaim :=
  if tok.secret = secret ∧ now < tok.exp then some tok.payload else none

/-- `POST /jwt` handler: sign the request-body claim with the configured
`ACCESS_TOKEN_SECRET` and a fixed 1-hour expiry; revision 2 answers a 500
(`none` here) when no secret is configured. -/
def postJwt (secretCfg : Option String) (body : TokenClaim) (now : Nat) :
    Option SignedToken :=
  secretCfg.map (fun s => jwtSign body s now)

/-- Claim C1: a request reaching a role gate with authenticated email `e`
proceeds through `verifyManager` iff the user document found for `e` has
role `manager` or `admin`, and through `verifyAdmin` iff it has role
`admin`; in every other case — including no user document found — the gate
answers 403 and the handler does not run. -/
theorem role_gates_c1 (users : List Doc) (email : String) :
    (verifyManager users email = .proceed ↔
      ∃ u, findOneBy users "email" email = some u ∧
        (u.get "role" = some "manager" ∨ u.get "role" = some "admin")) ∧
    (verifyAdmin users email = .proceed ↔
      ∃ u, findOneBy users "email" email = some u ∧ u.get "role" = some "admin") ∧
    (verifyManager users email ≠ .proceed →
      verifyManager users email = .forbidden403) ∧
    (verifyAdmin users email ≠ .proceed →
      verifyAdmin users email = .forbidden403) := by
  refine ⟨?_, ?_, ?_, ?_⟩
  · unfold verifyManager
    cases hfind : findOneBy users "email" email with
    | none => simp [hfind]
    | some u =>
        cases hrole : u.get "role" with
        | none => simp [hfind, hrole]
        | some r =>
            by_cases hm : r = "manager"
            · simp [hfind, hrole, hm]
            · by_cases ha : r = "admin"
              · simp [hfind, hrole, ha]
              · simp [hfind, hrole, hm, ha]
  · unfold verifyAdmin
    cases hfind : findOneBy users "email" email with
    | none => simp [hfind]
    | some u =>
        cases hrole : u.get "role" with
        | none => simp [hfind, hrole]
        | some r =>
            by_cases ha : r = "admin"
            · simp [hfind, hrole, ha]
            · simp [hfind, hrole, ha]
  · intro h
    cases hx : verifyManager users email
    · exact absurd hx h
    · rfl
  · intro h
    cases hx : verifyAdmin users email
    · exact absurd hx h
    · rfl

theorem role_gates_c1_witness :
    verifyManager [[("email", "m@x"), ("role", "manager")]] "m@x" = .proceed ∧
    verifyAdmin [[("email", "m@x"), ("role", "manager")]] "m@x" = .forbidden403 := by
  have H := role_gates_c1 [[("email", "m@x"), ("role", "manager")]] "m@x"
  refine ⟨H.1.mpr ⟨[("email", "m@x"), ("role", "manager")], by decide,
    Or.inl (by decide)⟩, H.2.2.2 ?_⟩
  intro hp
  obtain ⟨u, hu, hr⟩ := H.2.1.mp hp
  have hfind : findOneBy [[("email", "m@x"), ("role", "manager")]] "email" "m@x" =
      some [("email", "m@x"), ("role", "manager")] := by decide
  rw [hfind] at hu
  rw [(Option.some.inj hu).symm] at hr
  exact absurd hr (by decide)

/-- Claim C10: every application document created via `POST /applications`
has status `pending` and feeStatus `unpaid` at creation, whatever `status`
or `feeStatus` values the request body supplied. -/
theorem application_created_pending_unpaid_c10 (apps : List Doc) (body : Doc)
    (now : String) :
    ∃ d, postApplication apps body now = apps ++ [d] ∧
      d.get "status" = some "pending" ∧ d.get "feeStatus" = some "unpaid" := by
  refine ⟨postApplicationDoc body now, rfl, ?_, ?_⟩
  · unfold postApplicationDoc
    rw [Doc.get_set_ne _ _ _ _ (by decide), Doc.get_set_ne _ _ _ _ (by decide),
      Doc.get_set_self]
  · unfold postApplicationDoc
    rw [Doc.get_set_ne _ _ _ _ (by decide), Doc.get_set_self]

/-- Claim C4: a `POST /users` whose body email matches an existing user
document answers the already-exists marker (insertedId null) and leaves
the users collection unchanged; and after any `POST /users`, repeating the
identical POST answers the marker and changes nothing. -/
theorem duplicate_user_post_c4 (users : List Doc) (body : Doc) (t t2 : String)
    (h : (findUserByEmail users (body.get "email")).isSome) :
    postUsers users body t = (.alreadyExists, users) ∧
    postUsers (postUsers users body t).2 body t2 =
      (.alreadyExists, (postUsers users body t).2) := by
  constructor
  · unfold postUsers
    cases hfind : findUserByEmail users (body.get "email") with
    | none => rw [hfind] at h; exact absurd h (by simp)
    | some u => simp
  · cases hfind : findUserByEmail users (body.get "email") with
    | none =>
        exfalso; rw [hfind] at h; exact absurd h (by simp)
    | some u =>
        have h1 : postUsers users body t = (.alreadyExists, users) := by
          unfold postUsers; rw [hfind]
        rw [h1]
        unfold postUsers
        rw [hfind]

theorem duplicate_user_post_c4_witness :
    postUsers [[("email", "a@b"), ("role", "admin")]]
        [("email", "a@b")] "t1" =
      (.alreadyExists, [[("email", "a@b"), ("role", "admin")]]) ∧
    postUsers (postUsers [[("email", "a@b"), ("role", "admin")]]
        [("email", "a@b")] "t1").2 [("email", "a@b")] "t2" =
      (.alreadyExists, (postUsers [[("email", "a@b"), ("role", "admin")]]
        [("email", "a@b")] "t1").2) :=
  duplicate_user_post_c4 [[("email", "a@b"), ("role", "admin")]]
    [("email", "a@b")] "t1" "t2" (by decide)

/-- Claim C5: `DELETE /applications/:id` uses the compound filter
(`_id` AND `status = 'pending'`): when every document carrying the id is
not pending the delete removes nothing and reports count 0, and when a
pending document carrying the id exists the delete removes one matching
document and reports count 1. -/
theorem delete_application_pending_only_c5 (apps : List Doc) (id : String) :
    ((∀ d ∈ apps, d.get "_id" = some id → d.get "status" ≠ some "pending") →
      deleteApplication apps id = (0, apps)) ∧
    ((∃ d ∈ apps, deleteAppFilter id d) →
      (deleteApplication apps id).1 = 1 ∧
      ∃ l1 d l2, apps = l1 ++ d :: l2 ∧ deleteAppFilter id d = true ∧
        (deleteApplication apps id).2 = l1 ++ l2) := by
  constructor
  · intro hall
    unfold deleteApplication
    induction apps with
    | nil => rfl
    | cons d ds ih =>
        have hd : deleteAppFilter id d = false := by
          unfold deleteAppFilter
          by_cases hid : d.get "_id" = some id
          · have := hall d (by simp) hid
            simp [hid, this]
          · simp [hid]
        have hds := ih (fun e he => hall e (by simp [he]))
        simp only [deleteOne, hd]
        simp only [deleteOne] at hds
        simp [hds]
  · intro hex
    unfold deleteApplication
    induction apps with
    | nil => rcases hex with ⟨d, hd, _⟩; exact absurd hd (by simp)
    | cons d ds ih =>
        by_cases hd : deleteAppFilter id d = true
        · refine ⟨by simp [deleteOne, hd], [], d, ds, rfl, hd, by simp [deleteOne, hd]⟩
        · have hd2 : deleteAppFilter id d = false := by
            cases hdb : deleteAppFilter id d
            · rfl
            · exact absurd hdb hd
          have hex2 : ∃ e ∈ ds, deleteAppFilter id e := by
            rcases hex with ⟨e, he, hef⟩
            rcases List.mem_cons.mp he with he1 | he2
            · exact absurd (he1 ▸ hef) (by simp [hd2])
            · exact ⟨e, he2, hef⟩
          rcases ih hex2 with ⟨hcnt, l1, e, l2, hsplit, hef, hrest⟩
          refine ⟨by simp [deleteOne, hd2, hcnt], d :: l1, e, l2, by simp [hsplit],
            hef, ?_⟩
          simp [deleteOne, hd2, hrest]

theorem delete_application_pending_only_c5_witness :
    deleteApplication [[("_id", "A1"), ("status", "approved")]] "A1" =
      (0, [[("_id", "A1"), ("status", "approved")]]) ∧
    (deleteApplication [[("_id", "A2"), ("status", "pending")]] "A2").1 = 1 :=
  ⟨(delete_application_pending_only_c5 [[("_id", "A1"), ("status", "approved")]]
      "A1").1 (by decide),
   ((delete_application_pending_only_c5 [[("_id", "A2"), ("status", "pending")]]
      "A2").2 ⟨[("_id", "A2"), ("status", "pending")], by decide, by decide⟩).1⟩

/-- Claim C9 (counterexample to the claim as stated): a `POST /users` body
that supplies the role `""` does not get role `""` stored — the JS
`user.role || 'borrower'` default treats the empty string as absent and
stores `borrower` instead. -/
theorem post_users_role_c9_counterexample :
    Doc.get [("email", "e@x"), ("role", "")] "role" = some "" ∧
    (postUsers [] [("email", "e@x"), ("role", "")] "t0").1 =
      .inserted (postUserDoc [("email", "e@x"), ("role", "")] "t0") ∧
    (postUserDoc [("email", "e@x"), ("role", "")] "t0").get "role" =
      some "borrower" ∧
    ("borrower" : String) ≠ "" := by decide

/-- Claim C9 (amended): for a `POST /users` with a not-yet-existing email,
the inserted document's role equals the supplied role when a non-empty one
is supplied, and `borrower` when the role is absent or the empty string
(JS falsy); its status is always `active`.  In particular an
unauthenticated caller supplying role `admin` gets an admin document. -/
theorem post_users_role_status_c9 (users : List Doc) (body : Doc) (t : String)
    (hnew : findUserByEmail users (body.get "email") = none) :
    ∃ d, postUsers users body t = (.inserted d, users ++ [d]) ∧
      d.get "status" = some "active" ∧
      (∀ r, body.get "role" = some r → r ≠ "" → d.get "role" = some r) ∧
      ((body.get "role" = none ∨ body.get "role" = some "") →
        d.get "role" = some "borrower") := by
  refine ⟨postUserDoc body t, by unfold postUsers; rw [hnew], ?_, ?_, ?_⟩
  · unfold postUserDoc
    rw [Doc.get_set_ne _ _ _ _ (by decide), Doc.get_set_self]
  · intro r hr hne
    unfold postUserDoc
    rw [Doc.get_set_ne _ _ _ _ (by decide), Doc.get_set_ne _ _ _ _ (by decide),
      Doc.get_set_self, hr]
    simp [jsOr, hne]
  · intro hcase
    unfold postUserDoc
    rw [Doc.get_set_ne _ _ _ _ (by decide), Doc.get_set_ne _ _ _ _ (by decide),
      Doc.get_set_self]
    rcases hcase with hc | hc <;> simp [jsOr, hc]

theorem post_users_role_status_c9_witness :
    ∃ d, postUsers [] [("email", "eve@x"), ("role", "admin")] "t0" =
        (.inserted d, [] ++ [d]) ∧
      d.get "status" = some "active" ∧
      (∀ r, Doc.get [("email", "eve@x"), ("role", "admin")] "role" = some r →
        r ≠ "" → d.get "role" = some r) ∧
      ((Doc.get [("email", "eve@x"), ("role", "admin")] "role" = none ∨
        Doc.get [("email", "eve@x"), ("role", "admin")] "role" = some "") →
        d.get "role" = some "borrower") :=
  post_users_role_status_c9 [] [("email", "eve@x"), ("role", "admin")] "t0"
    (by decide)

/-- Claim C6: `PUT /loans/:id` upserts.  When no loan document carries the
id, a new document with that `_id` and exactly the request-body fields
(minus any client `_id`) is appended; when a document carries the id, the
first such document gets exactly the supplied fields overwritten and every
other field kept, and the rest of the collection is untouched. -/
theorem put_loan_upsert_c6 (loans : List Doc) (id : String) (body : Doc)
    (hnd : (List.map Prod.fst body).Nodup) :
    ((∀ d ∈ loans, d.get "_id" ≠ some id) →
      ∃ nd, putLoan loans id body = loans ++ [nd] ∧
        nd.get "_id" = some id ∧
        ∀ k, k ≠ "_id" → nd.get k = body.get k) ∧
    (∀ l1 d l2, loans = l1 ++ d :: l2 →
      (∀ e ∈ l1, e.get "_id" ≠ some id) → d.get "_id" = some id →
      ∃ d2, putLoan loans id body = l1 ++ d2 :: l2 ∧
        (∀ k, k ≠ "_id" → (body.get k).isSome → d2.get k = body.get k) ∧
        (∀ k, k = "_id" ∨ body.get k = none → d2.get k = d.get k)) := by
  have hndf : (List.map Prod.fst
      (List.filter (fun q => q.1 != "_id") body)).Nodup :=
    filter_keys_nodup body "_id" hnd
  constructor
  · intro hnone
    have hpred : ∀ d ∈ loans,
        (fun e : Doc => e.get "_id" == some id) d = false := by
      intro d hd
      simp only [beq_eq_false_iff_ne]
      exact hnone d hd
    refine ⟨applySet (Doc.set [] "_id" id)
        (List.filter (fun q => q.1 != "_id") body), ?_, ?_, ?_⟩
    · simp only [putLoan, updateFirst_none loans _ _ hpred]
    · rw [applySet_get _ _ _ hndf, get_filter_self_key, Doc.get_set_self]
    · intro k hk
      rw [applySet_get _ _ _ hndf, get_filter_ne_key body "_id" k hk]
      cases hb : Doc.get body k with
      | some v => rfl
      | none =>
          rw [Doc.get_set_ne _ _ _ _ hk]
          rfl
  · intro l1 d l2 hsplit h1 hd
    have hpred1 : ∀ e ∈ l1,
        (fun e : Doc => e.get "_id" == some id) e = false := by
      intro e he
      simp only [beq_eq_false_iff_ne]
      exact h1 e he
    have hpredd : (fun e : Doc => e.get "_id" == some id) d = true := by
      simp only [beq_iff_eq]
      exact hd
    refine ⟨applySet d (List.filter (fun q => q.1 != "_id") body), ?_, ?_, ?_⟩
    · rw [hsplit]
      simp only [putLoan, updateFirst_split l1 d l2 _ _ hpred1 hpredd]
    · intro k hk hsome
      rw [applySet_get _ _ _ hndf, get_filter_ne_key body "_id" k hk]
      cases hb : Doc.get body k with
      | some v => rfl
      | none => rw [hb] at hsome; exact absurd hsome (by simp)
    · intro k hcase
      rw [applySet_get _ _ _ hndf]
      by_cases hk : k = "_id"
      · rw [hk, get_filter_self_key]
      · rcases hcase with hc | hc
        · exact absurd hc hk
        · rw [get_filter_ne_key body "_id" k hk, hc]

theorem put_loan_upsert_c6_witness :
    (∃ nd, putLoan [] "L1" [("title", "Farm"), ("amount", "100")] =
        [] ++ [nd] ∧
      nd.get "_id" = some "L1" ∧
      ∀ k, k ≠ "_id" →
        nd.get k = Doc.get [("title", "Farm"), ("amount", "100")] k) ∧
    (∃ d2, putLoan [[("_id", "L2"), ("title", "Old"), ("rate", "5")]] "L2"
        [("title", "New")] = [] ++ d2 :: [] ∧
      (∀ k, k ≠ "_id" → (Doc.get [("title", "New")] k).isSome →
        d2.get k = Doc.get [("title", "New")] k) ∧
      (∀ k, k = "_id" ∨ Doc.get [("title", "New")] k = none →
        d2.get k = Doc.get [("_id", "L2"), ("title", "Old"), ("rate", "5")] k)) :=
  ⟨(put_loan_upsert_c6 [] "L1" [("title", "Farm"), ("amount", "100")]
      (by decide)).1 (by simp),
   (put_loan_upsert_c6 [[("_id", "L2"), ("title", "Old"), ("rate", "5")]] "L2"
      [("title", "New")] (by decide)).2 []
      [("_id", "L2"), ("title", "Old"), ("rate", "5")] [] rfl (by simp)
      (by decide)⟩

/-- Claim C2 (failing input, revision 2): for the borrower-scoped
`GET /applications` of revision 2, a caller `bob@x` receives an
application whose `borrowerEmail` is `alice@x` (because its `email` field
is `bob@x`), while revision 1 correctly withholds it — revision 2 filters
on the wrong field. -/
theorem borrower_scope_c2_bug :
    getApplicationsV2
        [[("borrowerEmail", "alice@x"), ("email", "bob@x"), ("status", "pending")]]
        "bob@x" (some "borrower") none =
      [[("borrowerEmail", "alice@x"), ("email", "bob@x"), ("status", "pending")]] ∧
    Doc.get
        [("borrowerEmail", "alice@x"), ("email", "bob@x"), ("status", "pending")]
        "borrowerEmail" = some "alice@x" ∧
    some "alice@x" ≠ some ("bob@x" : String) ∧
    getApplicationsV1
        [[("borrowerEmail", "alice@x"), ("email", "bob@x"), ("status", "pending")]]
        "bob@x" (some "borrower") none = [] := by decide

/-- Claim C3 (counterexample to the claim as stated): revision 1's
`verifyToken` rejects with 401 a request that carries the token only in
the `Authorization` bearer header, while revision 2 accepts it — so "for
every inbound request the token is accepted from either source" fails on
revision 1. -/
theorem token_cookie_only_c3_counterexample :
    verifyTokenV1 vfDemo ⟨none, some "Bearer hd"⟩ = .unauthorized401 ∧
    verifyTokenV2 true vfDemo ⟨none, some "Bearer hd"⟩ =
      .authorized ⟨"header@x"⟩ := by decide

/-- Claim C3 (amended): in revision 2 `verifyToken` takes the token from
the `token` cookie or, when the cookie is absent, from the bearer part of
the `Authorization` header — the cookie value is the one verified when
both are present — and answers 401 when neither is present; revision 1
accepts only the cookie and answers 401 whenever the cookie is absent,
even when a valid bearer header is present. -/
theorem token_sources_c3 (vf : Verifier) (c : String) (hc : c ≠ "")
    (hdr : Option String) (h t : String) (hh : h ≠ "")
    (hbt : bearerOf h = some t) (ht : t ≠ "") :
    (verifyTokenV2 true vf ⟨some c, hdr⟩ =
      match vf c with
      | some cl => .authorized cl
      | none => .unauthorized401) ∧
    (verifyTokenV2 true vf ⟨none, some h⟩ =
      match vf t with
      | some cl => .authorized cl
      | none => .unauthorized401) ∧
    (verifyTokenV2 true vf ⟨none, none⟩ = .unauthorized401) ∧
    (verifyTokenV1 vf ⟨some c, hdr⟩ =
      match vf c with
      | some cl => .authorized cl
      | none => .unauthorized401) ∧
    (verifyTokenV1 vf ⟨none, hdr⟩ = .unauthorized401) := by
  have hext1 : extractTokenV2 ⟨some c, hdr⟩ = some c := by
    simp [extractTokenV2, isTruthy, hc]
  have hext2 : extractTokenV2 ⟨none, some h⟩ = some t := by
    simp [extractTokenV2, isTruthy, hh, hbt]
  have hverify : ∀ (req : Req) (s : String), s ≠ "" →
      extractTokenV2 req = some s →
      verifyTokenV2 true vf req =
        match vf s with
        | some cl => AuthResult.authorized cl
        | none => AuthResult.unauthorized401 := by
    intro req s hs hx
    unfold verifyTokenV2
    rw [hx]
    simp only [isTruthy, Option.getD]
    simp [hs]
  refine ⟨hverify _ c hc hext1, hverify _ t ht hext2, ?_, ?_, ?_⟩
  · unfold verifyTokenV2
    simp [extractTokenV2, isTruthy]
  · unfold verifyTokenV1
    simp only [isTruthy, Option.getD]
    simp [hc]
  · unfold verifyTokenV1
    simp [isTruthy]

theorem token_sources_c3_witness :
    verifyTokenV2 true vfDemo ⟨some "ck", some "Bearer hd"⟩ =
      .authorized ⟨"cookie@x"⟩ ∧
    verifyTokenV2 true vfDemo ⟨none, some "Bearer hd"⟩ =
      .authorized ⟨"header@x"⟩ ∧
    verifyTokenV2 true vfDemo ⟨none, none⟩ = .unauthorized401 ∧
    verifyTokenV1 vfDemo ⟨none, some "Bearer hd"⟩ = .unauthorized401 := by
  have H := token_sources_c3 vfDemo "ck" (by decide) (some "Bearer hd")
    "Bearer hd" "hd" (by decide) (by decide) (by decide)
  exact ⟨H.1.trans (by decide), H.2.1.trans (by decide), H.2.2.1, H.2.2.2.2⟩

/-- Claim C7: token round trip.  A token issued by `POST /jwt` from a
claim verifies back to that claim at any time within the 1-hour expiry
under the same secret, and verification fails once the expiry has passed
or under any different secret. -/
theorem token_roundtrip_c7 (secret : String) (claim : TokenClaim)
    (t0 t1 : Nat) (tok : SignedToken)
    (hiss : postJwt (some secret) claim t0 = some tok) :
    (t1 < t0 + 3600 → jwtVerify tok secret t1 = some claim) ∧
    (t0 + 3600 ≤ t1 → jwtVerify tok secret t1 = none) ∧
    (∀ s2, s2 ≠ secret → jwtVerify tok s2 t1 = none) := by
  have htok : jwtSign claim secret t0 = tok := by
    simpa [postJwt] using hiss
  subst htok
  refine ⟨?_, ?_, ?_⟩
  · intro hlt
    unfold jwtVerify jwtSign
    rw [if_pos ⟨rfl, hlt⟩]
  · intro hge
    unfold jwtVerify jwtSign
    rw [if_neg (fun hand => absurd hand.2 (not_lt.mpr hge))]
  · intro s2 hs2
    unfold jwtVerify jwtSign
    rw [if_neg (fun hand => hs2 hand.1.symm)]

theorem token_roundtrip_c7_witness :
    jwtVerify (jwtSign ⟨"w@x"⟩ "s3cret" 1000) "s3cret" 1500 = some ⟨"w@x"⟩ ∧
    jwtVerify (jwtSign ⟨"w@x"⟩ "s3cret" 1000) "s3cret" 4600 = none ∧
    jwtVerify (jwtSign ⟨"w@x"⟩ "s3cret" 1000) "other" 1500 = none := by
  have H := token_roundtrip_c7 "s3cret" ⟨"w@x"⟩ 1000 1500
    (jwtSign ⟨"w@x"⟩ "s3cret" 1000) rfl
  have H2 := token_roundtrip_c7 "s3cret" ⟨"w@x"⟩ 1000 4600
    (jwtSign ⟨"w@x"⟩ "s3cret" 1000) rfl
  exact ⟨H.1 (by omega), H2.2.1 (by omega), H.2.2 "other" (by decide)⟩

end LoanLink
